import Mathlib

/-!
# Verification of the resume-parser pipeline

Shallow embedding of the repository's core logic (src/app.py, src/app2.py,
src/app3.py): PDF text extraction, token-budget truncation, the LLM call
boundary, JSON sanitization of the model response, and the caller-facing
route checks.  The primary embedding follows src/app3.py, whose
`clean_json_string` and `truncate_to_token_limit` are textually identical
to the ones in src/app2.py.

External collaborators are modelled explicitly:
  * Python's `json` standard library (`json.loads` / `json.dumps`) is
    modelled by an executable JSON value type with a fuel-based
    recursive-descent parser and a canonical printer using the default
    `json.dumps` separators.  The model covers objects, arrays, strings
    (with the common backslash escapes), integers, booleans and null;
    floats and \u escapes are outside the model.
  * The `tiktoken` estimator behind `count_tokens` is opaque; every
    definition and theorem that needs it is parametric in an arbitrary
    estimator `count : String → Nat`.
  * The Groq / Gemini completion client is opaque; the pipeline is
    parametric in `llm : String → Except String String` (an exception with
    message, or the raw response text).

Python strings are modelled as Lean `String` / `List Char`.
-/

namespace ResumeParser

/-- The `{` character (written via its code point throughout). -/
def lbrace : Char := '\x7b'

/-- The `}` character. -/
def rbrace : Char := '\x7d'

/-! ## Model of Python's `json` library: values -/

/-- JSON values, as produced by `json.loads`.  Object members keep their
textual order, as Python dicts do. -/
inductive Json where
  | null : Json
  | bool (b : Bool) : Json
  | num (n : Int) : Json
  | str (s : List Char) : Json
  | arr (elems : List Json) : Json
  | obj (members : List (List Char × Json)) : Json

/-! ## Model of `json.dumps` (default separators `", "` and `": "`) -/

/-- Digit character for a value below ten. -/
def digitChar (d : Nat) : Char := Char.ofNat (48 + d)

/-- Decimal digits of a natural number, least significant first; the fuel
is structural and any fuel at least the argument is enough. -/
def natToRevDigitsAux : Nat → Nat → List Char
  | 0, _ => []
  | fuel + 1, n => if n = 0 then [] else digitChar (n % 10) :: natToRevDigitsAux fuel (n / 10)

/-- Decimal digits of a natural number, least significant first. -/
def natToRevDigits (n : Nat) : List Char := natToRevDigitsAux (n + 1) n

/-- Decimal digits of a natural number, most significant first. -/
def natDigits (n : Nat) : List Char :=
  if n = 0 then ['0'] else (natToRevDigits n).reverse

/-- Decimal rendering of an integer, as Python prints it. -/
def intChars (n : Int) : List Char :=
  if n < 0 then '-' :: natDigits (-n).toNat else natDigits n.toNat

/-- Escape one character inside a JSON string literal. -/
def quoteChar (c : Char) : List Char :=
  if c = '"' then ['\\', '"']
  else if c = '\\' then ['\\', '\\']
  else if c = '\n' then ['\\', 'n']
  else if c = '\t' then ['\\', 't']
  else if c = '\r' then ['\\', 'r']
  else if c = '\x08' then ['\\', 'b']
  else if c = '\x0c' then ['\\', 'f']
  else [c]

/-- Escape every character of a string body. -/
def escChars : List Char → List Char
  | [] => []
  | c :: cs => quoteChar c ++ escChars cs

/-- A quoted JSON string literal. -/
def quoteList (s : List Char) : List Char := '"' :: (escChars s ++ ['"'])

mutual

/-- Characters of the canonical serialization of a JSON value, following
`json.dumps` with its default separators. -/
def dumpChars : Json → List Char
  | .null => "null".toList
  | .bool true => "true".toList
  | .bool false => "false".toList
  | .num n => intChars n
  | .str s => quoteList s
  | .arr vs => '[' :: (dumpElemsChars vs ++ [']'])
  | .obj ms => lbrace :: (dumpMembersChars ms ++ [rbrace])

/-- Array elements joined by `", "`. -/
def dumpElemsChars : List Json → List Char
  | [] => []
  | [v] => dumpChars v
  | v :: vs => dumpChars v ++ (',' :: ' ' :: dumpElemsChars vs)

/-- Object members `"key": value` joined by `", "`. -/
def dumpMembersChars : List (List Char × Json) → List Char
  | [] => []
  | [(k, v)] => quoteList k ++ (':' :: ' ' :: dumpChars v)
  | (k, v) :: ms =>
      quoteList k ++ (':' :: ' ' :: dumpChars v) ++ (',' :: ' ' :: dumpMembersChars ms)

end

/-- `json.dumps` on a parsed value. -/
def json_dumps (j : Json) : String := String.mk (dumpChars j)

/-! ## Model of `json.loads`: a fuel-based recursive-descent parser -/

/-- The whitespace characters Python's JSON parser skips between tokens. -/
def isJsonWs (c : Char) : Bool :=
  c = ' ' || c = '\t' || c = '\n' || c = '\r'

/-- Drop leading JSON whitespace. -/
def skipWs (l : List Char) : List Char := l.dropWhile isJsonWs

/-- Undo a backslash escape inside a string literal. -/
def unescape (e : Char) : Option Char :=
  if e = '"' then some '"'
  else if e = '\\' then some '\\'
  else if e = '/' then some '/'
  else if e = 'n' then some '\n'
  else if e = 't' then some '\t'
  else if e = 'r' then some '\r'
  else if e = 'b' then some '\x08'
  else if e = 'f' then some '\x0c'
  else none

/-- Parse the body of a string literal after the opening quote; returns the
decoded body and the input after the closing quote. -/
def parseStringBody : List Char → Option (List Char × List Char)
  | [] => none
  | '"' :: r => some ([], r)
  | '\\' :: e :: r2 =>
    match unescape e with
    | none => none
    | some d =>
      match parseStringBody r2 with
      | some (s, r3) => some (d :: s, r3)
      | none => none
  | c :: r =>
    match parseStringBody r with
    | some (s, r3) => some (c :: s, r3)
    | none => none

/-- Split a maximal run of decimal digits off the front of the input. -/
def takeDigits : List Char → List Char × List Char
  | [] => ([], [])
  | c :: r =>
    if c.isDigit then
      match takeDigits r with
      | (ds, r2) => (c :: ds, r2)
    else ([], c :: r)

/-- Numeric value of a digit run, most significant first. -/
def digitsToNat (ds : List Char) : Nat :=
  ds.foldl (fun a c => a * 10 + (c.toNat - 48)) 0

/-- Dispatch on the first non-whitespace character of a value, with the
element- and member-list parsers passed in (they are tied to the fuel by
`parseValue` below). -/
def parseValueCore (pE : List Char → Option (List Json × List Char))
    (pM : List Char → Option (List (List Char × Json) × List Char))
    (c : Char) (r : List Char) : Option (Json × List Char) :=
  if c = 'n' then
    match r with
    | 'u' :: 'l' :: 'l' :: r2 => some (.null, r2)
    | _ => none
  else if c = 't' then
    match r with
    | 'r' :: 'u' :: 'e' :: r2 => some (.bool true, r2)
    | _ => none
  else if c = 'f' then
    match r with
    | 'a' :: 'l' :: 's' :: 'e' :: r2 => some (.bool false, r2)
    | _ => none
  else if c = '"' then
    match parseStringBody r with
    | some (s, r2) => some (.str s, r2)
    | none => none
  else if c = '-' then
    match takeDigits r with
    | ([], _) => none
    | (d :: ds, r2) => some (.num (-(digitsToNat (d :: ds) : Int)), r2)
  else if c = '[' then
    if (skipWs r).head? = some ']' then some (.arr [], (skipWs r).tail)
    else
      match pE r with
      | some (vs, r2) => some (.arr vs, r2)
      | none => none
  else if c = lbrace then
    if (skipWs r).head? = some rbrace then some (.obj [], (skipWs r).tail)
    else
      match pM r with
      | some (ms, r2) => some (.obj ms, r2)
      | none => none
  else if c.isDigit then
    match takeDigits (c :: r) with
    | (ds, r2) => some (.num ((digitsToNat ds : Nat) : Int), r2)
  else none

/-- One step of a comma-separated element list, with the value parser and
the rest-of-list parser passed in. -/
def parseElemsCore (pV : List Char → Option (Json × List Char))
    (pE : List Char → Option (List Json × List Char))
    (l : List Char) : Option (List Json × List Char) :=
  match pV l with
  | none => none
  | some (v, r) =>
    match skipWs r with
    | ',' :: r2 =>
      match pE r2 with
      | some (vs, r3) => some (v :: vs, r3)
      | none => none
    | ']' :: r2 => some ([v], r2)
    | _ => none

/-- One step of a `"key": value` member list, with the value parser and the
rest-of-list parser passed in. -/
def parseMembersCore (pV : List Char → Option (Json × List Char))
    (pM : List Char → Option (List (List Char × Json) × List Char))
    (l : List Char) : Option (List (List Char × Json) × List Char) :=
  match skipWs l with
  | '"' :: r =>
    match parseStringBody r with
    | none => none
    | some (k, r2) =>
      match skipWs r2 with
      | ':' :: r3 =>
        match pV r3 with
        | none => none
        | some (v, r4) =>
          match skipWs r4 with
          | ',' :: r5 =>
            match pM r5 with
            | some (ms, r6) => some ((k, v) :: ms, r6)
            | none => none
          | c :: r5 => if c = rbrace then some ([(k, v)], r5) else none
          | _ => none
      | _ => none
  | _ => none

mutual

/-- Parse one JSON value.  The fuel bounds recursion depth; every level of
nesting in the input consumes at least one character, so any fuel above the
input length is enough. -/
def parseValue : Nat → List Char → Option (Json × List Char)
  | 0, _ => none
  | f + 1, l =>
    match skipWs l with
    | [] => none
    | c :: r => parseValueCore (parseElems f) (parseMembers f) c r

/-- Parse a non-empty comma-separated element list up to the closing `]`. -/
def parseElems : Nat → List Char → Option (List Json × List Char)
  | 0, _ => none
  | f + 1, l => parseElemsCore (parseValue f) (parseElems f) l

/-- Parse a non-empty member list `"key": value, ...` up to the closing `}`. -/
def parseMembers : Nat → List Char → Option (List (List Char × Json) × List Char)
  | 0, _ => none
  | f + 1, l => parseMembersCore (parseValue f) (parseMembers f) l

end

/-- `json.loads`: parse a complete document, requiring only whitespace after
the value.  Parse failures carry (a simplification of) Python's diagnostic. -/
def json_loads (s : String) : Except String Json :=
  match parseValue (s.toList.length + 1) s.toList with
  | none => .error "Expecting value"
  | some (j, rest) =>
    if (skipWs rest).isEmpty then .ok j else .error "Extra data"

/-! ## Python string primitives used by the source -/

/-- Index of the first occurrence of a character, if any. -/
def findIdx : List Char → Char → Option Nat
  | [], _ => none
  | c :: r, t => if c = t then some 0 else (findIdx r t).map (· + 1)

/-- Index of the last occurrence of a character, if any. -/
def rfindIdx (l : List Char) (t : Char) : Option Nat :=
  match findIdx l.reverse t with
  | some i => some (l.length - 1 - i)
  | none => none

/-- Python `str.find`: first index of the character, `-1` when absent. -/
def pyFind (s : String) (t : Char) : Int :=
  match findIdx s.toList t with
  | some i => (i : Int)
  | none => -1

/-- Python `str.rfind`: last index of the character, `-1` when absent. -/
def pyRfind (s : String) (t : Char) : Int :=
  match rfindIdx s.toList t with
  | some i => (i : Int)
  | none => -1

/-- Python slicing `s[a:b]` for non-negative bounds: drop `a` characters,
keep `b - a` (empty when `b <= a`, exactly Python's clamping). -/
def pySlice (s : String) (a b : Nat) : String :=
  String.mk ((s.toList.drop a).take (b - a))

/-- The characters Python's `str.strip()` removes. -/
def pyIsSpace (c : Char) : Bool :=
  c = ' ' || c = '\t' || c = '\n' || c = '\r' || c = '\x0b' || c = '\x0c'

/-- Python `str.strip()`: drop leading and trailing whitespace. -/
def pyStrip (s : String) : String :=
  String.mk (((s.toList.dropWhile pyIsSpace).reverse.dropWhile pyIsSpace).reverse)

/-- Python `str.lower()` (ASCII case folding, which covers the extensions
the source compares against). -/
def pyLower (s : String) : String := String.mk (s.toList.map Char.toLower)

/-! ## The core pipeline of src/app3.py -/

/-- `ResumeParser.clean_json_string` (src/app3.py lines 54-68; identical in
src/app2.py lines 40-54).  The whole body sits in a `try` block, so the
`ValueError("No JSON object found in response")` raised by the guard is
itself caught by the `except` clause and re-raised as
`ValueError("Invalid JSON structure: " + message)`; every failure of this
function therefore carries the `Invalid JSON structure: ` prefix.  On
success it returns `json.dumps` of the parsed slice. -/
def clean_json_string (text : String) : Except String String :=
  let start : Int := pyFind text lbrace
  let stop : Int := pyRfind text rbrace + 1
  if start = -1 ∨ stop = 0 then
    .error ("Invalid JSON structure: " ++ "No JSON object found in response")
  else
    let json_str := pySlice text start.toNat stop.toNat
    match json_loads json_str with
    | .error e => .error ("Invalid JSON structure: " ++ e)
    | .ok parsed => .ok (json_dumps parsed)

/-- The concatenated page text computed by `extract_text_from_pdf`:
`text += page.extract_text() + "\n"` over the pages, starting from `""`.
A pdfplumber document is modelled as its list of per-page texts. -/
def pagesText (pages : List String) : String :=
  pages.foldl (fun acc p => acc ++ p ++ "\n") ""

/-- `ResumeParser.extract_text_from_pdf` (src/app3.py lines 38-52).  The
`ValueError("No text could be extracted from the PDF.")` raised when the
concatenated text strips to empty is caught by the function's `except`
clause and re-raised as `RuntimeError("Failed to extract text: " + message)`.
On success the function returns `text.strip()`. -/
def extract_text_from_pdf (pages : List String) : Except String String :=
  let text := pagesText pages
  if pyStrip text = "" then
    .error ("Failed to extract text: " ++ "No text could be extracted from the PDF.")
  else
    .ok (pyStrip text)

/-- One iteration of the truncation loop body:
`text = text[:int(len(text) * 0.9)]`.  For every length below 2^50 the
float expression `int(len(text) * 0.9)` equals `len * 9 / 10` in integer
arithmetic, which is how it is modelled. -/
def shrinkStep (text : String) : String :=
  String.mk (text.toList.take (text.length * 9 / 10))

/-- The `while count_tokens(text) > max_tokens` loop of
`truncate_to_token_limit`, with explicit fuel.  Running out of fuel
(`none`) models the loop failing to exit within that many iterations; the
Python loop has no iteration cap of its own. -/
def truncateAux (count : String → Nat) (max_tokens : Nat) : Nat → String → Option String
  | 0, _ => none
  | fuel + 1, text =>
    if count text > max_tokens then truncateAux count max_tokens fuel (shrinkStep text)
    else some text

/-- `ResumeParser.truncate_to_token_limit` (src/app3.py lines 70-74;
identical in src/app2.py lines 56-60), parametric in the opaque `tiktoken`
estimator behind `count_tokens`.  `text.length + 1` iterations always
suffice when the loop terminates at all, since each pass on a non-empty
string strictly shortens it and the loop can only exit (or spin forever)
on the empty string. -/
def truncate_to_token_limit (count : String → Nat) (text : String) (max_tokens : Nat) :
    Option String :=
  truncateAux count max_tokens (text.length + 1) text

/-- `self.MAX_TOKENS` (src/app3.py line 36). -/
def MAX_TOKENS : Nat := 2000

/-- The fixed prompt template of src/app3.py lines 88-105. -/
def prompt : String :=
  "Extract resume information from the following text. Return a JSON object with key details:\n\x7b\n  \"profile\": \x7b\n    \"location\": \x7b\"current\": \"\", \"relocation\": \"\"\x7d,\n    \"education\": \x7b\"college\": \"\", \"degree\": \"\", \"stream\": \"\"\x7d,\n    \"professionalExperience\": [\n      \x7b\n        \"company\": \"\",\n        \"from\": \"\",\n        \"to\": \"\",\n        \"description\": [\"\"]\n      \x7d\n    ],\n    \"skills\": [\x7b\"skill\": \"\", \"yearsOfExperience\": \"\"\x7d]\n  \x7d\n\x7d\n\nResume Text: "

/-- `ResumeParser.parse_resume` (src/app3.py lines 76-131).  The document
is a list of page texts, `count` models the opaque `count_tokens`
estimator, and `llm` models the opaque Groq completion call (either an
exception message or the raw response text).  The outer `none` marks the
truncation loop never exiting (the only way the body fails to produce a
value or an exception); `some (.error m)` is the uniform
`RuntimeError("Error parsing resume: " + str(e))` re-raise of the
function's `except` clause, and `some (.ok j)` is a successful return of
`json.loads(clean_json)`. -/
def parse_resume (count : String → Nat) (llm : String → Except String String)
    (pages : List String) : Option (Except String Json) :=
  match extract_text_from_pdf pages with
  | .error e => some (.error ("Error parsing resume: " ++ e))
  | .ok extracted_text =>
    match truncate_to_token_limit count extracted_text MAX_TOKENS with
    | none => none
    | some truncated_content =>
      match llm (prompt ++ "\n" ++ truncated_content) with
      | .error e => some (.error ("Error parsing resume: " ++ e))
      | .ok response_text =>
        match clean_json_string response_text with
        | .error e => some (.error ("Error parsing resume: " ++ e))
        | .ok clean_json =>
          match json_loads clean_json with
          | .error e => some (.error ("Error parsing resume: " ++ e))
          | .ok parsed => some (.ok parsed)

/-! ## The caller-facing route of src/app3.py -/

/-- `ALLOWED_EXTENSIONS` (src/app3.py line 17). -/
def ALLOWED_EXTENSIONS : List String := ["pdf", "docx", "doc"]

/-- Python `filename.rsplit('.', 1)[1]`: the segment after the last dot
(meaningful when a dot is present). -/
def rsplitLast (s : String) : String :=
  String.mk ((s.toList.reverse.takeWhile (fun c => c ≠ '.')).reverse)

/-- `allowed_file` (src/app3.py lines 24-26): a dot is present and the
lowercased segment after the last dot is in the allow-list. -/
def allowed_file (filename : String) : Bool :=
  filename.toList.contains '.' && ALLOWED_EXTENSIONS.contains (pyLower (rsplitLast filename))

/-- Caller-visible outcome of the `/parse-resume` route. -/
inductive RouteResponse where
  | badRequest (msg : String)
  | ok (data : Json)
  | serverError (msg : String)

/-- The `/parse-resume` route handler (src/app3.py lines 137-181): the
file-presence check, the empty-filename check, the `allowed_file` check
(each answering 400 without touching the parser), then the call into
`ResumeParser.parse_resume`, whose exception surfaces as a 500 response.
The parser call is a parameter so that runs differing only in the parser
behaviour can be compared; file saving and cleanup are I/O side effects
outside the model.  The exact allow-list rendering inside the 400 message
(a Python set repr) is elided. -/
def parse_resume_route (hasResumeFile : Bool) (filename : String)
    (parseFile : String → Option (Except String Json)) : Option RouteResponse :=
  if hasResumeFile = false then some (.badRequest "No file uploaded")
  else if filename = "" then some (.badRequest "No file selected")
  else if allowed_file filename = false then
    some (.badRequest "File type not allowed")
  else
    match parseFile filename with
    | none => none
    | some (.ok data) => some (.ok data)
    | some (.error e) => some (.serverError e)

/-! ## Auxiliary definitions for the statements and proofs -/

/-- Value of a digit list, least significant first (proof device for the
decimal round-trip). -/
def valRev : List Char → Nat
  | [] => 0
  | c :: cs => (c.toNat - 48) + 10 * valRev cs

/-- The input does not start with a decimal digit (so a digit run before it
is maximal). -/
def noDigitHead (l : List Char) : Prop :=
  ∀ c, l.head? = some c → c.isDigit = false

mutual

/-- Structure size of a JSON value; fuel at least this size suffices for
the parser on its serialization. -/
def jsize : Json → Nat
  | .arr vs => 1 + jsizeL vs
  | .obj ms => 1 + jsizeM ms
  | _ => 1

/-- Structure size of an element list. -/
def jsizeL : List Json → Nat
  | [] => 0
  | v :: vs => 1 + jsize v + jsizeL vs

/-- Structure size of a member list. -/
def jsizeM : List (List Char × Json) → Nat
  | [] => 0
  | m :: ms => 1 + jsize m.2 + jsizeM ms

end

/-- Modelled from the spec: "Slice the substring between these two indices
inclusive", the indices being the first `{` and the last `}` of the text.
Stated independently of the code's `find`/`rfind + 1` arithmetic so the
code can be checked against it. -/
def firstLastSlice (text : String) : String :=
  match findIdx text.toList lbrace, rfindIdx text.toList rbrace with
  | some i, some j => String.mk ((text.toList.drop i).take (j + 1 - i))
  | _, _ => ""

/-- Modelled from the claim: the extension of an uploaded filename is the
lowercased segment after the final dot, absent when there is no dot. -/
def extensionOf (filename : String) : Option String :=
  if filename.toList.contains '.' then some (pyLower (rsplitLast filename)) else none

/-- The claim-side allow-list check: the extension is present and allowed. -/
def extensionAllowed (filename : String) : Prop :=
  ∃ e, extensionOf filename = some e ∧ e ∈ ALLOWED_EXTENSIONS

/-- Whether a JSON value is an object carrying the given key. -/
def hasKey (j : Json) (k : List Char) : Bool :=
  match j with
  | .obj ms => ms.any (fun kv => kv.1 = k)
  | _ => false

/-- A non-monotonic token estimator that charges the empty string above any
small budget: it sends the truncation loop of the source into an infinite
loop, exhibiting the absence of an iteration cap. -/
def cexCount : String → Nat := fun s => if s.length = 0 then 2 else 0

/-! # Theorems

## Decimal digits round-trip through the printer and the parser -/

theorem digitChar_toNat (d : Nat) (h : d < 10) : (digitChar d).toNat = 48 + d := by
  interval_cases d <;> rfl

theorem digitChar_isDigit (d : Nat) (h : d < 10) : (digitChar d).isDigit = true := by
  interval_cases d <;> rfl

theorem mem_natToRevDigitsAux_isDigit :
    ∀ f n c, c ∈ natToRevDigitsAux f n → c.isDigit = true := by
  intro f
  induction f with
  | zero => intro n c hc; simp [natToRevDigitsAux] at hc
  | succ f ih =>
    intro n c hc
    by_cases h0 : n = 0
    · simp [natToRevDigitsAux, h0] at hc
    · simp only [natToRevDigitsAux, if_neg h0, List.mem_cons] at hc
      rcases hc with rfl | hc
      · exact digitChar_isDigit _ (Nat.mod_lt _ (by omega))
      · exact ih _ _ hc

theorem natDigits_all_digit (n : Nat) : ∀ c ∈ natDigits n, c.isDigit = true := by
  intro c hc
  by_cases h0 : n = 0
  · simp [natDigits, h0] at hc; subst hc; rfl
  · simp only [natDigits, if_neg h0, List.mem_reverse] at hc
    exact mem_natToRevDigitsAux_isDigit _ _ _ hc

theorem natDigits_ne_nil (n : Nat) : natDigits n ≠ [] := by
  by_cases h0 : n = 0
  · simp [natDigits, h0]
  · simp [natDigits, natToRevDigits, natToRevDigitsAux, h0]

theorem valRev_natToRevDigitsAux : ∀ f n, n ≤ f → valRev (natToRevDigitsAux f n) = n := by
  intro f
  induction f with
  | zero => intro n h; interval_cases n; rfl
  | succ f ih =>
    intro n h
    by_cases h0 : n = 0
    · simp [natToRevDigitsAux, h0, valRev]
    · have hdiv : n / 10 ≤ f := by
        have h10 : n / 10 < n := Nat.div_lt_self (Nat.pos_of_ne_zero h0) (by norm_num)
        omega
      simp only [natToRevDigitsAux, if_neg h0, valRev]
      rw [digitChar_toNat _ (Nat.mod_lt _ (by omega)), ih _ hdiv]
      omega

theorem digitsToNat_reverse : ∀ l : List Char, digitsToNat l.reverse = valRev l := by
  intro l
  induction l with
  | nil => rfl
  | cons c cs ih =>
    simp only [digitsToNat, List.reverse_cons, List.foldl_append, List.foldl_cons,
      List.foldl_nil] at ih ⊢
    rw [ih]
    simp only [valRev]
    omega

theorem digitsToNat_natDigits (n : Nat) : digitsToNat (natDigits n) = n := by
  by_cases h0 : n = 0
  · subst h0; rfl
  · simp only [natDigits, if_neg h0, natToRevDigits]
    rw [digitsToNat_reverse, valRev_natToRevDigitsAux _ _ (by omega)]

/-! ## Maximal digit runs -/

theorem noDigitHead_cons (c : Char) (r : List Char) (h : c.isDigit = false) :
    noDigitHead (c :: r) := by
  intro d hd
  simp only [List.head?] at hd
  cases hd
  exact h

theorem noDigitHead_nil : noDigitHead [] := by
  intro d hd
  simp at hd

theorem takeDigits_append (ds rest : List Char) (hd : ∀ c ∈ ds, c.isDigit = true)
    (hr : noDigitHead rest) : takeDigits (ds ++ rest) = (ds, rest) := by
  induction ds with
  | nil =>
    simp only [List.nil_append]
    cases rest with
    | nil => rfl
    | cons c r =>
      have hc : c.isDigit = false := hr c rfl
      simp [takeDigits, hc]
  | cons d ds ih =>
    have hdd : d.isDigit = true := hd d (by simp)
    simp only [List.cons_append, takeDigits, hdd, if_pos, List.append_eq]
    rw [ih (fun c hc => hd c (by simp [hc]))]

/-! ## String literals round-trip through the printer and the parser -/

theorem parseStringBody_esc :
    ∀ s rest, parseStringBody (escChars s ++ '"' :: rest) = some (s, rest) := by
  intro s
  induction s with
  | nil => intro rest; rfl
  | cons c cs ih =>
    intro rest
    by_cases h1 : c = '"'
    · subst h1; simp [escChars, quoteChar, parseStringBody, unescape, ih]
    · by_cases h2 : c = '\\'
      · subst h2; simp [escChars, quoteChar, parseStringBody, unescape, ih]
      · by_cases h3 : c = '\n'
        · subst h3; simp [escChars, quoteChar, parseStringBody, unescape, ih]
        · by_cases h4 : c = '\t'
          · subst h4; simp [escChars, quoteChar, parseStringBody, unescape, ih]
          · by_cases h5 : c = '\r'
            · subst h5; simp [escChars, quoteChar, parseStringBody, unescape, ih]
            · by_cases h6 : c = '\x08'
              · subst h6; simp [escChars, quoteChar, parseStringBody, unescape, ih]
              · by_cases h7 : c = '\x0c'
                · subst h7; simp [escChars, quoteChar, parseStringBody, unescape, ih]
                · simp [escChars, quoteChar, parseStringBody, h1, h2, h3, h4, h5, h6, h7, ih]

/-! ## Parser unfolding and whitespace lemmas -/


theorem parseValue_ws (f : Nat) (l : List Char) : parseValue f (' ' :: l) = parseValue f l := by
  cases f <;> rfl

theorem parseMembers_ws (f : Nat) (l : List Char) : parseMembers f (' ' :: l) = parseMembers f l := by
  cases f <;> rfl

theorem parseElems_ws (f : Nat) (l : List Char) : parseElems f (' ' :: l) = parseElems f l := by
  cases f with
  | zero => rfl
  | succ g => simp only [parseElems, parseElemsCore, parseValue_ws]

theorem skipWs_cons_of_not_ws (c : Char) (l : List Char) (h : isJsonWs c = false) :
    skipWs (c :: l) = c :: l := by
  simp [skipWs, List.dropWhile_cons, h]

theorem isDigit_not_ws (c : Char) (h : c.isDigit = true) : isJsonWs c = false := by
  cases hc : isJsonWs c
  · rfl
  · exfalso
    simp only [isJsonWs, Bool.or_eq_true, decide_eq_true_eq] at hc
    rcases hc with ((rfl | rfl) | rfl) | rfl <;> exact absurd h (by decide)

theorem isDigit_ne_heads (c : Char) (h : c.isDigit = true) :
    c ≠ 'n' ∧ c ≠ 't' ∧ c ≠ 'f' ∧ c ≠ '"' ∧ c ≠ '-' ∧ c ≠ '[' ∧ c ≠ lbrace := by
  refine ⟨?_, ?_, ?_, ?_, ?_, ?_, ?_⟩ <;> (intro hq; subst hq; exact absurd h (by decide))

theorem pvCore_digit (pE : List Char → Option (List Json × List Char))
    (pM : List Char → Option (List (List Char × Json) × List Char))
    (c : Char) (r : List Char) (hc : c.isDigit = true) :
    parseValueCore pE pM c r =
      (match takeDigits (c :: r) with
       | (ds, r2) => some (.num ((digitsToNat ds : Nat) : Int), r2)) := by
  obtain ⟨h1, h2, h3, h4, h5, h6, h7⟩ := isDigit_ne_heads c hc
  simp only [parseValueCore, if_neg h1, if_neg h2, if_neg h3, if_neg h4, if_neg h5,
    if_neg h6, if_neg h7]
  rw [if_pos hc]

theorem parseValue_succ_cons (f : Nat) (c : Char) (r l : List Char) (h : skipWs l = c :: r) :
    parseValue (f + 1) l = parseValueCore (parseElems f) (parseMembers f) c r := by
  simp only [parseValue, h]

theorem peCore_last (pV : List Char → Option (Json × List Char))
    (pE : List Char → Option (List Json × List Char))
    (l : List Char) (v : Json) (r2 : List Char) (h : pV l = some (v, ']' :: r2)) :
    parseElemsCore pV pE l = some ([v], r2) := by
  simp only [parseElemsCore, h]
  rfl

theorem peCore_comma (pV : List Char → Option (Json × List Char))
    (pE : List Char → Option (List Json × List Char))
    (l : List Char) (v : Json) (r2 : List Char) (h : pV l = some (v, ',' :: r2)) :
    parseElemsCore pV pE l =
      (match pE r2 with
       | some (vs, r3) => some (v :: vs, r3)
       | none => none) := by
  simp only [parseElemsCore, h]
  rfl


theorem skipWs_quote (r : List Char) : skipWs ('"' :: r) = '"' :: r := rfl

theorem skipWs_comma (r : List Char) : skipWs (',' :: r) = ',' :: r := rfl

theorem pv_quote_head (f : Nat) (r : List Char) : parseValue (f + 1) ('"' :: r) =
    (match parseStringBody r with
     | some (s, r2) => some (.str s, r2)
     | none => none) := rfl

theorem pv_neg_head (f : Nat) (r : List Char) : parseValue (f + 1) ('-' :: r) =
    (match takeDigits r with
     | ([], _) => none
     | (d :: ds, r2) => some (.num (-(digitsToNat (d :: ds) : Int)), r2)) := rfl

theorem pv_lbrack_head (f : Nat) (r : List Char) : parseValue (f + 1) ('[' :: r) =
    (if (skipWs r).head? = some ']' then some (.arr [], (skipWs r).tail)
     else
       match parseElems f r with
       | some (vs, r2) => some (.arr vs, r2)
       | none => none) := rfl

theorem pv_lbrace_head (f : Nat) (r : List Char) : parseValue (f + 1) (lbrace :: r) =
    (if (skipWs r).head? = some rbrace then some (.obj [], (skipWs r).tail)
     else
       match parseMembers f r with
       | some (ms, r2) => some (.obj ms, r2)
       | none => none) := rfl

theorem pmCore_entry (pV : List Char → Option (Json × List Char))
    (pM : List Char → Option (List (List Char × Json) × List Char))
    (k T : List Char) :
    parseMembersCore pV pM ('"' :: (escChars k ++ '"' :: ':' :: ' ' :: T)) =
      (match pV (' ' :: T) with
       | none => none
       | some (v, r4) =>
         match skipWs r4 with
         | ',' :: r5 =>
           match pM r5 with
           | some (ms, r6) => some ((k, v) :: ms, r6)
           | none => none
         | c :: r5 => if c = rbrace then some ([(k, v)], r5) else none
         | _ => none) := by
  simp only [parseMembersCore, skipWs_quote, parseStringBody_esc]
  rfl

theorem jsize_pos (j : Json) : 1 ≤ jsize j := by
  cases j <;> simp [jsize]

theorem jsizeL_pos (vs : List Json) (h : vs ≠ []) : 1 ≤ jsizeL vs := by
  cases vs with
  | nil => exact absurd rfl h
  | cons v vs => simp [jsizeL]; omega

theorem jsizeM_pos (ms : List (List Char × Json)) (h : ms ≠ []) : 1 ≤ jsizeM ms := by
  cases ms with
  | nil => exact absurd rfl h
  | cons m ms => obtain ⟨k, v⟩ := m; simp [jsizeM]; omega

theorem dumpElems_cons_ex (v : Json) (vs : List Json) :
    ∃ t, dumpElemsChars (v :: vs) = dumpChars v ++ t := by
  cases vs with
  | nil => exact ⟨[], by simp [dumpElemsChars]⟩
  | cons w ws => exact ⟨',' :: ' ' :: dumpElemsChars (w :: ws), rfl⟩

theorem dumpMembers_head (m : List Char × Json) (ms : List (List Char × Json)) :
    ∃ t, dumpMembersChars (m :: ms) = '"' :: t := by
  obtain ⟨k, v⟩ := m
  cases ms with
  | nil => exact ⟨escChars k ++ '"' :: ':' :: ' ' :: dumpChars v, by
      simp [dumpMembersChars, quoteList]⟩
  | cons m2 ms2 => exact ⟨escChars k ++ '"' :: ':' :: ' ' :: (dumpChars v ++
      ',' :: ' ' :: dumpMembersChars (m2 :: ms2)), by
      simp [dumpMembersChars, quoteList]⟩

theorem dumpChars_head (j : Json) :
    ∃ c t, dumpChars j = c :: t ∧ isJsonWs c = false ∧ c ≠ ']' := by
  cases j with
  | null => exact ⟨'n', _, rfl, by decide, by decide⟩
  | bool b => cases b with
    | true => exact ⟨'t', _, rfl, by decide, by decide⟩
    | false => exact ⟨'f', _, rfl, by decide, by decide⟩
  | num n =>
    by_cases h : n < 0
    · exact ⟨'-', natDigits (-n).toNat, by simp [dumpChars, intChars, h], by decide, by decide⟩
    · obtain ⟨d, ds, hds⟩ : ∃ d ds, natDigits n.toNat = d :: ds := by
        cases hh : natDigits n.toNat with
        | nil => exact absurd hh (natDigits_ne_nil _)
        | cons d ds => exact ⟨d, ds, rfl⟩
      have hd : d.isDigit = true := by
        have := natDigits_all_digit n.toNat
        rw [hds] at this
        exact this d (by simp)
      refine ⟨d, ds, by simp [dumpChars, intChars, h, hds], isDigit_not_ws d hd, ?_⟩
      intro hq; subst hq; exact absurd hd (by decide)
  | str s => exact ⟨'"', _, rfl, by decide, by decide⟩
  | arr vs => exact ⟨'[', _, rfl, by decide, by decide⟩
  | obj ms => exact ⟨lbrace, _, rfl, by decide, by decide⟩

theorem parseValue_natDigits (f : Nat) (m : Nat) (rest : List Char) (hnd : noDigitHead rest) :
    parseValue (f + 1) (natDigits m ++ rest) = some (.num (m : Int), rest) := by
  obtain ⟨d, ds, hds⟩ : ∃ d ds, natDigits m = d :: ds := by
    cases h : natDigits m with
    | nil => exact absurd h (natDigits_ne_nil m)
    | cons d ds => exact ⟨d, ds, rfl⟩
  have hdig : ∀ c ∈ d :: ds, c.isDigit = true := by
    rw [← hds]; exact natDigits_all_digit m
  have hd : d.isDigit = true := hdig d (by simp)
  rw [hds, List.cons_append,
    parseValue_succ_cons f d (ds ++ rest) _ (skipWs_cons_of_not_ws _ _ (isDigit_not_ws _ hd)),
    pvCore_digit _ _ _ _ hd, ← List.cons_append, takeDigits_append _ _ hdig hnd]
  show some (Json.num ((digitsToNat (d :: ds) : Nat) : Int), rest) = _
  rw [← hds, digitsToNat_natDigits]

theorem parseValue_negDigits (f : Nat) (m : Nat) (rest : List Char) (hnd : noDigitHead rest) :
    parseValue (f + 1) ('-' :: (natDigits m ++ rest)) = some (.num (-(m : Int)), rest) := by
  obtain ⟨d, ds, hds⟩ : ∃ d ds, natDigits m = d :: ds := by
    cases h : natDigits m with
    | nil => exact absurd h (natDigits_ne_nil m)
    | cons d ds => exact ⟨d, ds, rfl⟩
  have hdig : ∀ c ∈ d :: ds, c.isDigit = true := by
    rw [← hds]; exact natDigits_all_digit m
  rw [pv_neg_head, hds, List.cons_append, ← List.cons_append,
    takeDigits_append _ _ hdig hnd]
  show some (Json.num (-(digitsToNat (d :: ds) : Int)), rest) = _
  rw [← hds, digitsToNat_natDigits]


theorem parse_dump_round : ∀ f : Nat,
    (∀ j rest, jsize j ≤ f → noDigitHead rest →
        parseValue f (dumpChars j ++ rest) = some (j, rest)) ∧
    (∀ vs rest, vs ≠ [] → jsizeL vs ≤ f →
        parseElems f (dumpElemsChars vs ++ ']' :: rest) = some (vs, rest)) ∧
    (∀ ms rest, ms ≠ [] → jsizeM ms ≤ f →
        parseMembers f (dumpMembersChars ms ++ rbrace :: rest) = some (ms, rest)) := by
  intro f
  induction f with
  | zero =>
    refine ⟨?_, ?_, ?_⟩
    · intro j rest hsz _; exact absurd hsz (by have := jsize_pos j; omega)
    · intro vs rest hne hsz; exact absurd hsz (by have := jsizeL_pos vs hne; omega)
    · intro ms rest hne hsz; exact absurd hsz (by have := jsizeM_pos ms hne; omega)
  | succ f ih =>
    obtain ⟨ihP, ihQ, ihR⟩ := ih
    refine ⟨?_, ?_, ?_⟩
    · intro j rest hsz hnd
      cases j with
      | null => rfl
      | bool b => cases b <;> rfl
      | num n =>
        by_cases h : n < 0
        · have hrw : dumpChars (Json.num n) = '-' :: natDigits (-n).toNat := by
            simp [dumpChars, intChars, h]
          have hc : (((-n).toNat : Nat) : Int) = -n := Int.toNat_of_nonneg (by omega)
          rw [hrw, List.cons_append, parseValue_negDigits f _ rest hnd, hc, neg_neg]
        · have hrw : dumpChars (Json.num n) = natDigits n.toNat := by
            simp [dumpChars, intChars, h]
          rw [hrw, parseValue_natDigits f _ rest hnd, Int.toNat_of_nonneg (by omega)]
      | str s =>
        have hrw : dumpChars (Json.str s) ++ rest = '"' :: (escChars s ++ '"' :: rest) := by
          simp [dumpChars, quoteList]
        rw [hrw, pv_quote_head, parseStringBody_esc]
      | arr vs =>
        cases vs with
        | nil => rfl
        | cons v vs =>
          obtain ⟨c0, t0, hdv, hws0, hne0⟩ := dumpChars_head v
          obtain ⟨t1, ht1⟩ := dumpElems_cons_ex v vs
          have hsk : skipWs (dumpElemsChars (v :: vs) ++ ']' :: rest) =
              dumpElemsChars (v :: vs) ++ ']' :: rest := by
            rw [ht1, hdv]
            simp only [List.cons_append]
            exact skipWs_cons_of_not_ws _ _ hws0
          have hhd : (skipWs (dumpElemsChars (v :: vs) ++ ']' :: rest)).head? = some c0 := by
            rw [hsk, ht1, hdv]
            simp only [List.cons_append, List.head?_cons]
          have harr : dumpChars (Json.arr (v :: vs)) ++ rest =
              '[' :: (dumpElemsChars (v :: vs) ++ ']' :: rest) := by
            simp [dumpChars]
          rw [harr, pv_lbrack_head,
            if_neg (by rw [hhd]; simp [hne0]),
            ihQ (v :: vs) rest (by simp) (by simp [jsize] at hsz; omega)]
      | obj ms =>
        cases ms with
        | nil => rfl
        | cons m ms =>
          obtain ⟨t1, ht1⟩ := dumpMembers_head m ms
          have hsk : skipWs (dumpMembersChars (m :: ms) ++ rbrace :: rest) =
              dumpMembersChars (m :: ms) ++ rbrace :: rest := by
            rw [ht1]
            simp only [List.cons_append]
            exact skipWs_cons_of_not_ws _ _ (by decide)
          have hhd : (skipWs (dumpMembersChars (m :: ms) ++ rbrace :: rest)).head? = some '"' := by
            rw [hsk, ht1]
            simp only [List.cons_append, List.head?_cons]
          have hobj : dumpChars (Json.obj (m :: ms)) ++ rest =
              lbrace :: (dumpMembersChars (m :: ms) ++ rbrace :: rest) := by
            simp [dumpChars]
          rw [hobj, pv_lbrace_head,
            if_neg (by rw [hhd]; intro hq; exact absurd hq (by decide)),
            ihR (m :: ms) rest (by simp) (by simp [jsize] at hsz; omega)]
    · intro vs rest hne hsz
      cases vs with
      | nil => exact absurd rfl hne
      | cons v vs =>
        cases vs with
        | nil =>
          have hP : parseValue f (dumpChars v ++ ']' :: rest) = some (v, ']' :: rest) :=
            ihP v (']' :: rest) (by simp [jsizeL] at hsz; omega)
              (noDigitHead_cons _ _ (by decide))
          have h1 : dumpElemsChars [v] = dumpChars v := rfl
          simp only [parseElems, h1]
          exact peCore_last _ _ _ _ _ hP
        | cons w ws =>
          have hposv := jsize_pos v
          have hposL := jsizeL_pos (w :: ws) (by simp)
          have hszL : 1 + jsize v + jsizeL (w :: ws) ≤ f + 1 := by
            have h := hsz
            simp only [jsizeL] at h ⊢
            omega
          have hb : jsize v ≤ f := by omega
          have hb2 : jsizeL (w :: ws) ≤ f := by omega
          have hP : parseValue f
              (dumpChars v ++ (',' :: ' ' :: (dumpElemsChars (w :: ws) ++ ']' :: rest))) =
              some (v, ',' :: ' ' :: (dumpElemsChars (w :: ws) ++ ']' :: rest)) :=
            ihP v _ hb (noDigitHead_cons _ _ (by decide))
          have h1 : dumpElemsChars (v :: w :: ws) ++ ']' :: rest =
              dumpChars v ++ (',' :: ' ' :: (dumpElemsChars (w :: ws) ++ ']' :: rest)) := by
            simp [dumpElemsChars]
          simp only [parseElems, h1]
          rw [peCore_comma _ _ _ _ _ hP, parseElems_ws, ihQ (w :: ws) rest (by simp) hb2]
    · intro ms rest hne hsz
      cases ms with
      | nil => exact absurd rfl hne
      | cons m ms =>
        obtain ⟨k, v⟩ := m
        cases ms with
        | nil =>
          have hb : jsize v ≤ f := by simp [jsizeM] at hsz; omega
          have h1 : dumpMembersChars [(k, v)] ++ rbrace :: rest =
              '"' :: (escChars k ++ '"' :: ':' :: ' ' :: (dumpChars v ++ rbrace :: rest)) := by
            simp [dumpMembersChars, quoteList]
          simp only [parseMembers, h1]
          rw [pmCore_entry, parseValue_ws,
            ihP v (rbrace :: rest) hb (noDigitHead_cons _ _ (by decide))]
          rfl
        | cons m2 ms2 =>
          have hposv := jsize_pos v
          have hposM := jsizeM_pos (m2 :: ms2) (by simp)
          have hszM : 1 + jsize v + jsizeM (m2 :: ms2) ≤ f + 1 := by
            have h := hsz
            simp only [jsizeM] at h ⊢
            omega
          have hb : jsize v ≤ f := by omega
          have hb2 : jsizeM (m2 :: ms2) ≤ f := by omega
          have h1 : dumpMembersChars ((k, v) :: m2 :: ms2) ++ rbrace :: rest =
              '"' :: (escChars k ++ '"' :: ':' :: ' ' ::
                (dumpChars v ++ (',' :: ' ' :: (dumpMembersChars (m2 :: ms2) ++
                  rbrace :: rest)))) := by
            simp [dumpMembersChars, quoteList]
          simp only [parseMembers, h1]
          rw [pmCore_entry, parseValue_ws,
            ihP v (',' :: ' ' :: (dumpMembersChars (m2 :: ms2) ++ rbrace :: rest)) hb
              (noDigitHead_cons _ _ (by decide))]
          simp only [skipWs_comma]
          rw [parseMembers_ws, ihR (m2 :: ms2) rest (by simp) hb2]


theorem toList_mk (l : List Char) : (String.mk l).toList = l := rfl

theorem intChars_pos (n : Int) : 1 ≤ (intChars n).length := by
  by_cases h : n < 0
  · simp [intChars, h]
  · simp only [intChars, if_neg h]
    have := natDigits_ne_nil n.toNat
    cases hh : natDigits n.toNat with
    | nil => exact absurd hh this
    | cons d ds => simp [hh]

mutual

theorem jsize_le_dump (j : Json) : jsize j ≤ (dumpChars j).length := by
  cases j with
  | null => simp [jsize, dumpChars]
  | bool b => cases b <;> simp [jsize, dumpChars]
  | num n => simp only [jsize, dumpChars]; exact intChars_pos n
  | str s => simp [jsize, dumpChars, quoteList]
  | arr vs =>
    have h := jsizeL_le_dump vs
    simp only [jsize, dumpChars, List.length_cons, List.length_append, List.length_singleton]
    omega
  | obj ms =>
    have h := jsizeM_le_dump ms
    simp only [jsize, dumpChars, List.length_cons, List.length_append, List.length_singleton]
    omega

theorem jsizeL_le_dump (vs : List Json) : jsizeL vs ≤ (dumpElemsChars vs).length + 1 := by
  cases vs with
  | nil => simp [jsizeL]
  | cons v ws =>
    cases ws with
    | nil =>
      have h := jsize_le_dump v
      simp only [jsizeL, dumpElemsChars]
      omega
    | cons w ws2 =>
      have h1 := jsize_le_dump v
      have h2 := jsizeL_le_dump (w :: ws2)
      simp only [jsizeL] at h2 ⊢
      simp only [dumpElemsChars, List.length_append, List.length_cons]
      omega

theorem jsizeM_le_dump (ms : List (List Char × Json)) :
    jsizeM ms ≤ (dumpMembersChars ms).length + 1 := by
  cases ms with
  | nil => simp [jsizeM]
  | cons m ms2 =>
    obtain ⟨k, v⟩ := m
    cases ms2 with
    | nil =>
      have h := jsize_le_dump v
      simp only [jsizeM, dumpMembersChars, List.length_append, List.length_cons]
      omega
    | cons m2 ms3 =>
      have h1 := jsize_le_dump v
      have h2 := jsizeM_le_dump (m2 :: ms3)
      simp only [jsizeM] at h2 ⊢
      simp only [dumpMembersChars, List.length_append, List.length_cons]
      omega

end

theorem json_loads_dumps (j : Json) : json_loads (json_dumps j) = .ok j := by
  have hp : parseValue ((dumpChars j).length + 1) (dumpChars j ++ []) = some (j, []) :=
    (parse_dump_round ((dumpChars j).length + 1)).1 j []
      (le_trans (jsize_le_dump j) (by omega)) noDigitHead_nil
  rw [List.append_nil] at hp
  simp only [json_loads, json_dumps, toList_mk]
  rw [hp]
  rfl

theorem clean_json_string_eq (text : String) (i j : Nat)
    (hi : findIdx text.toList lbrace = some i) (hj : rfindIdx text.toList rbrace = some j) :
    clean_json_string text =
      (match json_loads (String.mk ((text.toList.drop i).take (j + 1 - i))) with
       | .error e => .error ("Invalid JSON structure: " ++ e)
       | .ok parsed => .ok (json_dumps parsed)) := by
  unfold clean_json_string pyFind pyRfind
  rw [hi, hj]
  rw [if_neg (by omega : ¬(((i : Nat) : Int) = -1 ∨ ((j : Nat) : Int) + 1 = 0))]
  have h1 : (((i : Nat) : Int)).toNat = i := by omega
  have h2 : ((((j : Nat) : Int)) + 1).toNat = j + 1 := by omega
  rw [h1, h2]
  rfl
theorem findIdx_none_iff (t : Char) : ∀ l : List Char, findIdx l t = none ↔ t ∉ l := by
  intro l
  induction l with
  | nil => simp [findIdx]
  | cons c r ih =>
    simp only [findIdx, List.mem_cons]
    by_cases hc : c = t
    · subst hc
      simp
    · rw [if_neg hc, Option.map_eq_none', ih]
      constructor
      · intro h hmem
        rcases hmem with hmem | hm
        · exact hc hmem.symm
        · exact h hm
      · intro h hm
        exact h (Or.inr hm)

theorem findIdx_drop_head :
    ∀ (l : List Char) (t : Char) (i : Nat), findIdx l t = some i →
      (l.drop i).head? = some t := by
  intro l
  induction l with
  | nil => intro t i h; simp [findIdx] at h
  | cons c r ih =>
    intro t i h
    by_cases hc : c = t
    · simp only [findIdx, if_pos hc] at h
      injection h with h1
      subst h1
      simp [hc]
    · simp only [findIdx, if_neg hc] at h
      cases hf : findIdx r t with
      | none => rw [hf] at h; simp at h
      | some i0 =>
        rw [hf] at h
        simp only [Option.map_some', Option.some.injEq] at h
        subst h
        simpa using ih t i0 hf
theorem clean_guard_error (text : String)
    (h : findIdx text.toList lbrace = none ∨ rfindIdx text.toList rbrace = none) :
    clean_json_string text =
      .error ("Invalid JSON structure: " ++ "No JSON object found in response") := by
  unfold clean_json_string pyFind pyRfind
  rcases h with h | h
  · rw [h]
    rcases hj : rfindIdx text.toList rbrace with _ | j <;> rfl
  · rw [h]
    rcases hi : findIdx text.toList lbrace with _ | i
    · rfl
    · dsimp only
      rw [if_pos (Or.inr (by decide : ((-1 : Int) + 1 = 0)))]

theorem json_loads_head_lbrace (l : List Char) (j : Json)
    (h : json_loads (String.mk (lbrace :: l)) = .ok j) : ∃ ms, j = .obj ms := by
  unfold json_loads at h
  simp only [toList_mk, List.length_cons] at h
  rw [pv_lbrace_head] at h
  by_cases hc : (skipWs l).head? = some rbrace
  · rw [if_pos hc] at h
    by_cases he : (skipWs (skipWs l).tail).isEmpty
    · simp [he] at h
      exact ⟨[], h.symm⟩
    · simp [he] at h
  · rw [if_neg hc] at h
    cases hpm : parseMembers (l.length + 1) l with
    | none => rw [hpm] at h; simp at h
    | some p =>
      obtain ⟨ms, r2⟩ := p
      rw [hpm] at h
      by_cases he : (skipWs r2).isEmpty
      · simp [he] at h
        exact ⟨ms, h.symm⟩
      · simp [he] at h

theorem clean_ok_decomp (text : String) (s : String) (h : clean_json_string text = .ok s) :
    ∃ i j parsed, findIdx text.toList lbrace = some i ∧ rfindIdx text.toList rbrace = some j ∧
      json_loads (String.mk ((text.toList.drop i).take (j + 1 - i))) = .ok parsed ∧
      s = json_dumps parsed := by
  cases hi : findIdx text.toList lbrace with
  | none => rw [clean_guard_error text (Or.inl hi)] at h; exact absurd h (by simp)
  | some i =>
    cases hj : rfindIdx text.toList rbrace with
    | none => rw [clean_guard_error text (Or.inr hj)] at h; exact absurd h (by simp)
    | some j =>
      rw [clean_json_string_eq text i j hi hj] at h
      cases hp : json_loads (String.mk ((text.toList.drop i).take (j + 1 - i))) with
      | error e => rw [hp] at h; exact absurd h (by simp)
      | ok parsed =>
        rw [hp] at h
        simp only [Except.ok.injEq] at h
        exact ⟨i, j, parsed, rfl, rfl, hp, h.symm⟩
theorem clean_dumps_obj (ms : List (List Char × Json)) :
    clean_json_string (json_dumps (Json.obj ms)) = .ok (json_dumps (Json.obj ms)) := by
  have hdo : dumpChars (Json.obj ms) = lbrace :: (dumpMembersChars ms ++ [rbrace]) := rfl
  have hfi : findIdx (json_dumps (Json.obj ms)).toList lbrace = some 0 := by
    rw [json_dumps, toList_mk, hdo]
    simp [findIdx]
  have hfj : rfindIdx (json_dumps (Json.obj ms)).toList rbrace =
      some ((dumpMembersChars ms).length + 1) := by
    rw [json_dumps, toList_mk, hdo]
    unfold rfindIdx
    rw [show (lbrace :: (dumpMembersChars ms ++ [rbrace])).reverse =
        rbrace :: ((dumpMembersChars ms).reverse ++ [lbrace]) from by simp]
    rw [show findIdx (rbrace :: ((dumpMembersChars ms).reverse ++ [lbrace])) rbrace = some 0 from
      by simp [findIdx]]
    simp
  rw [clean_json_string_eq _ 0 ((dumpMembersChars ms).length + 1) hfi hfj]
  have hslice : ((json_dumps (Json.obj ms)).toList.drop 0).take
      ((dumpMembersChars ms).length + 1 + 1 - 0) = (json_dumps (Json.obj ms)).toList := by
    rw [List.drop_zero]
    apply List.take_of_length_le
    rw [json_dumps, toList_mk, hdo]
    simp
  rw [hslice]
  rw [show String.mk ((json_dumps (Json.obj ms)).toList) = json_dumps (Json.obj ms) from rfl]
  rw [json_loads_dumps]

/-- Claim C8: `sanitize` is idempotent on its own canonical output.  In the
code, `clean_json_string` both sanitizes and canonically re-serializes, so
`s = clean_json_string x` is the serialization of `sanitize x`, and the
claim states that sanitizing `s` again succeeds and returns `s` itself
(hence the same parsed record).  The precondition "x contains at least one
valid JSON object" is formalized as `clean_json_string x` succeeding, the
only reading under which the claimed equation is defined. -/
theorem clean_json_string_idempotent (x s : String) (h : clean_json_string x = .ok s) :
    clean_json_string s = .ok s := by
  obtain ⟨i, j, parsed, hi, hj, hp, hs⟩ := clean_ok_decomp x s h
  have hij : i ≤ j := by
    by_contra hlt
    have hz : j + 1 - i = 0 := by omega
    rw [hz] at hp
    simp only [List.take_zero] at hp
    rw [show json_loads (String.mk []) = Except.error "Expecting value" from rfl] at hp
    exact absurd hp (by simp)
  have hhead : (x.toList.drop i).head? = some lbrace := findIdx_drop_head _ _ _ hi
  cases hdrop : x.toList.drop i with
  | nil => rw [hdrop] at hhead; simp at hhead
  | cons c u =>
    rw [hdrop] at hhead hp
    simp only [List.head?_cons, Option.some.injEq] at hhead
    subst hhead
    rw [show j + 1 - i = (j - i) + 1 from by omega] at hp
    simp only [List.take_succ_cons] at hp
    obtain ⟨ms, hms⟩ := json_loads_head_lbrace _ _ hp
    subst hms
    subst hs
    exact clean_dumps_obj ms

/-! ## Truncation, pipeline, and route lemmas -/

theorem shrinkStep_length (text : String) : (shrinkStep text).length = text.length * 9 / 10 := by
  have h1 : (shrinkStep text).length = (text.toList.take (text.length * 9 / 10)).length := rfl
  have h2 : text.toList.length = text.length := rfl
  rw [h1, List.length_take, h2]
  omega

theorem shrinkStep_lt (text : String) (h : text.length ≠ 0) :
    (shrinkStep text).length < text.length := by
  rw [shrinkStep_length]
  omega

theorem truncateAux_sound (count : String → Nat) (b : Nat) (hb : count "" ≤ b) :
    ∀ fuel text, text.length < fuel →
      ∃ r, truncateAux count b fuel text = some r ∧ count r ≤ b := by
  intro fuel
  induction fuel with
  | zero => intro text h; omega
  | succ f ih =>
    intro text h
    by_cases hc : count text > b
    · have hne : text.length ≠ 0 := by
        intro h0
        have hemp : text = "" := by
          cases text with
          | mk data =>
            cases data with
            | nil => rfl
            | cons c cs => simp [String.length] at h0
        rw [hemp] at hc
        omega
      have hlt := shrinkStep_lt text hne
      obtain ⟨r, hr, hcr⟩ := ih (shrinkStep text) (by omega)
      exact ⟨r, by simp [truncateAux, hc, hr], hcr⟩
    · exact ⟨text, by simp [truncateAux, hc], by omega⟩

theorem truncate_sound (count : String → Nat) (b : Nat) (hb : count "" ≤ b) (text : String) :
    ∃ r, truncate_to_token_limit count text b = some r ∧ count r ≤ b :=
  truncateAux_sound count b hb (text.length + 1) text (by omega)

theorem truncateAux_cex_empty : ∀ f, truncateAux cexCount 1 f "" = none := by
  intro f
  induction f with
  | zero => rfl
  | succ f ih => exact ih

theorem extract_whitespace_error (pages : List String) (h : pyStrip (pagesText pages) = "") :
    extract_text_from_pdf pages =
      .error ("Failed to extract text: " ++ "No text could be extracted from the PDF.") := by
  simp [extract_text_from_pdf, h]

/-- Claim C6 (amended): every failure surfaced by `parse_resume` — at the
extraction, completion-call, or sanitization stage — is re-raised as the
single uniform `RuntimeError` whose message is `"Error parsing resume: "`
followed by the underlying cause's message, and no partial result is
returned (the result is either this uniform error or a full record).  The
error does not carry a machine-readable stage tag: the stage is only
logged, as the counterexample shows. -/
theorem parse_resume_error_uniform (count : String → Nat)
    (llm : String → Except String String) (pages : List String) (e : String)
    (h : parse_resume count llm pages = some (.error e)) :
    ∃ m, e = "Error parsing resume: " ++ m := by
  cases hx : extract_text_from_pdf pages with
  | error e0 =>
    simp only [parse_resume, hx] at h
    simp at h
    exact ⟨e0, h.symm⟩
  | ok ext =>
    cases ht : truncate_to_token_limit count ext MAX_TOKENS with
    | none =>
      simp only [parse_resume, hx, ht] at h
      exact absurd h (by simp)
    | some tr =>
      cases hl : llm (prompt ++ "\n" ++ tr) with
      | error e1 =>
        simp only [parse_resume, hx, ht, hl] at h
        simp at h
        exact ⟨e1, h.symm⟩
      | ok resp =>
        cases hc : clean_json_string resp with
        | error e2 =>
          simp only [parse_resume, hx, ht, hl, hc] at h
          simp at h
          exact ⟨e2, h.symm⟩
        | ok cj =>
          cases hj : json_loads cj with
          | error e3 =>
            simp only [parse_resume, hx, ht, hl, hc, hj] at h
            simp at h
            exact ⟨e3, h.symm⟩
          | ok p =>
            simp only [parse_resume, hx, ht, hl, hc, hj] at h
            simp at h

/-- Claim C7 (amended): a successful pipeline run returns exactly the JSON
value parsed from the sanitized model response — every stage succeeded and
the result is `json.loads` of the canonical serialization of the model's
object, with no reshaping: the fixed schema is requested in the prompt but
not enforced, so keys absent from the model's output are absent from the
returned record (see the counterexample). -/
theorem parse_resume_ok_decomp (count : String → Nat)
    (llm : String → Except String String) (pages : List String) (j : Json)
    (h : parse_resume count llm pages = some (.ok j)) :
    ∃ extracted truncated resp cj,
      extract_text_from_pdf pages = .ok extracted ∧
      truncate_to_token_limit count extracted MAX_TOKENS = some truncated ∧
      llm (prompt ++ "\n" ++ truncated) = .ok resp ∧
      clean_json_string resp = .ok cj ∧
      json_loads cj = .ok j := by
  cases hx : extract_text_from_pdf pages with
  | error e0 =>
    simp only [parse_resume, hx] at h
    simp at h
  | ok ext =>
    cases ht : truncate_to_token_limit count ext MAX_TOKENS with
    | none =>
      simp only [parse_resume, hx, ht] at h
      exact absurd h (by simp)
    | some tr =>
      cases hl : llm (prompt ++ "\n" ++ tr) with
      | error e1 =>
        simp only [parse_resume, hx, ht, hl] at h
        simp at h
      | ok resp =>
        cases hc : clean_json_string resp with
        | error e2 =>
          simp only [parse_resume, hx, ht, hl, hc] at h
          simp at h
        | ok cj =>
          cases hj : json_loads cj with
          | error e3 =>
            simp only [parse_resume, hx, ht, hl, hc, hj] at h
            simp at h
          | ok p =>
            simp only [parse_resume, hx, ht, hl, hc, hj] at h
            simp at h
            subst h
            exact ⟨ext, tr, resp, cj, rfl, ht, hl, hc, hj⟩

theorem extensionOf_allowed_iff (filename : String) :
    allowed_file filename = true ↔ extensionAllowed filename := by
  constructor
  · intro h
    simp only [allowed_file, Bool.and_eq_true] at h
    obtain ⟨h1, h2⟩ := h
    refine ⟨pyLower (rsplitLast filename), ?_, ?_⟩
    · simp only [extensionOf]
      rw [if_pos h1]
    · simpa using h2
  · rintro ⟨e, he, hmem⟩
    simp only [extensionOf] at he
    by_cases h1 : filename.toList.contains '.'
    · rw [if_pos h1] at he
      injection he with he1
      subst he1
      simp only [allowed_file, Bool.and_eq_true]
      exact ⟨h1, by simpa using hmem⟩
    · rw [if_neg h1] at he
      exact absurd he (by simp)

/-! ## Claim theorems, witnesses, and counterexamples -/

/-- Claim C1: for every raw response text that contains at least one `{`
and at least one `}`, `clean_json_string` slices exactly the substring from
the first `{` to the last `}` inclusive (`firstLastSlice`, defined from the
spec's words), parses that substring as JSON, and returns the parsed
structure (canonically re-serialized; the pipeline recovers the structure
itself by `json_loads`, per the second conjunct), discarding all prose
before the first `{` and after the last `}`. -/
theorem clean_json_string_first_last_slice (text : String) (j : Json)
    (h1 : lbrace ∈ text.toList) (h2 : rbrace ∈ text.toList)
    (hp : json_loads (firstLastSlice text) = .ok j) :
    clean_json_string text = .ok (json_dumps j) ∧ json_loads (json_dumps j) = .ok j := by
  cases hi : findIdx text.toList lbrace with
  | none =>
    rw [findIdx_none_iff] at hi
    exact absurd h1 hi
  | some i =>
    cases hj : rfindIdx text.toList rbrace with
    | none =>
      exfalso
      have hrev : findIdx text.toList.reverse rbrace = none := by
        cases hrevc : findIdx text.toList.reverse rbrace with
        | none => rfl
        | some k =>
          exfalso
          have hk : rfindIdx text.toList rbrace = some (text.toList.length - 1 - k) := by
            unfold rfindIdx
            rw [hrevc]
          rw [hk] at hj
          exact absurd hj (by simp)
      rw [findIdx_none_iff] at hrev
      exact hrev (by simpa using h2)
    | some j0 =>
      have hi2 : findIdx text.data lbrace = some i := hi
      have hj2 : rfindIdx text.data rbrace = some j0 := hj
      have hfl : firstLastSlice text =
          String.mk ((text.toList.drop i).take (j0 + 1 - i)) := by
        simp [firstLastSlice, hi, hj, hi2, hj2]
      rw [hfl] at hp
      rw [clean_json_string_eq text i j0 hi hj, hp]
      exact ⟨rfl, json_loads_dumps j⟩

theorem clean_json_string_first_last_slice_witness :
    clean_json_string "Sure! Here is the data: \x7b\"profile\": \x7b\x7d\x7d Hope that helps!" =
      .ok (json_dumps (Json.obj [("profile".toList, Json.obj [])])) ∧
    json_loads (json_dumps (Json.obj [("profile".toList, Json.obj [])])) =
      .ok (Json.obj [("profile".toList, Json.obj [])]) :=
  clean_json_string_first_last_slice _ _ (by decide) (by decide) (by rfl)

/-- Claim C2: for every document whose extracted text is empty or
whitespace-only, the pipeline run fails with the extraction error wrapped
in the uniform pipeline error, and no completion call is attempted: the
result is already determined before the `llm` collaborator could be
invoked, so it is the same for every completion function. -/
theorem parse_resume_empty_extraction_fails (pages : List String)
    (h : pyStrip (pagesText pages) = "") (count : String → Nat)
    (llm : String → Except String String) :
    parse_resume count llm pages = some (.error ("Error parsing resume: " ++
        ("Failed to extract text: " ++ "No text could be extracted from the PDF."))) ∧
    ∀ llm2 : String → Except String String,
      parse_resume count llm pages = parse_resume count llm2 pages := by
  have hx := extract_whitespace_error pages h
  constructor
  · simp only [parse_resume, hx]
  · intro llm2
    simp only [parse_resume, hx]

theorem parse_resume_empty_extraction_fails_witness :
    parse_resume (fun _ => 0) (fun _ => .ok "ignored") ["   ", "\n"] =
      some (.error ("Error parsing resume: " ++
        ("Failed to extract text: " ++ "No text could be extracted from the PDF."))) ∧
    parse_resume (fun _ => 0) (fun _ => .ok "ignored") ["   ", "\n"] =
      parse_resume (fun _ => 0) (fun _ => .error "backend down") ["   ", "\n"] :=
  ⟨(parse_resume_empty_extraction_fails ["   ", "\n"] (by rfl) (fun _ => 0)
      (fun _ => .ok "ignored")).1,
    (parse_resume_empty_extraction_fails ["   ", "\n"] (by rfl) (fun _ => 0)
      (fun _ => .ok "ignored")).2 (fun _ => .error "backend down")⟩

/-- Claim C3: for every estimator, text `t` and budget `b` with
`estimate("") ≤ b`, the truncation loop exits and its result satisfies
`estimate(result) ≤ b`.  The theorem is parametric in the estimator, so it
holds in particular for the opaque `tiktoken` estimator behind
`count_tokens` (which assigns the empty string cost `0`). -/
theorem truncate_respects_budget (count : String → Nat) (t : String) (b : Nat)
    (hb : count "" ≤ b) :
    ∃ r, truncate_to_token_limit count t b = some r ∧ count r ≤ b :=
  truncate_sound count b hb t

theorem truncate_respects_budget_witness :
    String.length "" ≤ 3 ∧
    ∃ r, truncate_to_token_limit String.length "aaaaaaaaaa" 3 = some r ∧
      String.length r ≤ 3 :=
  ⟨by decide, truncate_respects_budget String.length "aaaaaaaaaa" 3 (by decide)⟩

/-- Claim C4 counterexample: the truncation loop of the source has no
defensive iteration cap and no `BudgetError`.  With the non-monotonic
estimator `cexCount` (which charges the empty string `2` although every
non-empty string costs `0`) and the positive budget `1`, the loop never
exits with any iteration bound whatsoever — it loops forever instead of
failing closed. -/
theorem truncate_no_iteration_cap_cex :
    (1 : Nat) > 0 ∧ cexCount "" > cexCount "a" ∧ cexCount "" > 1 ∧
    ¬ ∃ f r, truncateAux cexCount 1 f "" = some r := by
  refine ⟨by decide, by decide, by decide, ?_⟩
  rintro ⟨f, r, hf⟩
  rw [truncateAux_cex_empty f] at hf
  exact absurd hf (by simp)

/-- Claim C4 (amended): for every estimator, text `t` and budget `b` with
`estimate("") ≤ b` (as holds for the subword estimator at every budget),
the truncation loop terminates within `t.length + 1` iterations.  The code
has no iteration cap and no `BudgetError`; with a non-monotonic estimator
charging the empty string above budget it loops forever rather than
failing closed (see the counterexample). -/
theorem truncate_terminates_bounded (count : String → Nat) (t : String) (b : Nat)
    (hb : count "" ≤ b) :
    ∃ r, truncateAux count b (t.length + 1) t = some r := by
  obtain ⟨r, hr, _⟩ := truncate_sound count b hb t
  exact ⟨r, hr⟩

theorem truncate_terminates_bounded_witness :
    String.length "" ≤ 5 ∧
    ∃ r, truncateAux String.length 5 ("abcdefgh".length + 1) "abcdefgh" = some r :=
  ⟨by decide, truncate_terminates_bounded String.length "abcdefgh" 5 (by decide)⟩

/-- Claim C5: for every raw response text that contains no `{` or no `}`,
`clean_json_string` fails with the no-JSON-object-found error and never
returns a record.  (In the code the guard's
`ValueError("No JSON object found in response")` is re-wrapped by the
function's own `except` clause, so the surfaced message carries the
`Invalid JSON structure: ` prefix around it.) -/
theorem clean_json_string_no_braces_error (text : String)
    (h : lbrace ∉ text.toList ∨ rbrace ∉ text.toList) :
    clean_json_string text =
      .error ("Invalid JSON structure: " ++ "No JSON object found in response") := by
  apply clean_guard_error
  rcases h with h | h
  · left
    rw [findIdx_none_iff]
    exact h
  · right
    unfold rfindIdx
    rw [show findIdx text.toList.reverse rbrace = none from by
      rw [findIdx_none_iff]; simpa using h]

theorem clean_json_string_no_braces_error_witness :
    clean_json_string "I could not process this file." =
      .error ("Invalid JSON structure: " ++ "No JSON object found in response") :=
  clean_json_string_no_braces_error _ (Or.inl (by decide))

/-- Claim C6 counterexample: the surfaced pipeline error carries no stage
tag.  A run whose extraction fails and a run whose (opaque) completion
call fails with a colliding message produce the identical caller-visible
error, although the first never got past extraction and the second
extracted successfully — so no function of the surfaced error can identify
the originating stage. -/
theorem pipeline_error_stage_tag_cex :
    parse_resume (fun _ => 0)
        (fun _ => .error ("Failed to extract text: " ++
          "No text could be extracted from the PDF."))
        [""] =
      parse_resume (fun _ => 0)
        (fun _ => .error ("Failed to extract text: " ++
          "No text could be extracted from the PDF."))
        ["hello"] ∧
    extract_text_from_pdf [""] =
      .error ("Failed to extract text: " ++ "No text could be extracted from the PDF.") ∧
    extract_text_from_pdf ["hello"] = .ok "hello" :=
  ⟨rfl, rfl, rfl⟩

theorem parse_resume_error_uniform_witness :
    ∃ m, ("Error parsing resume: " ++ "boom") = "Error parsing resume: " ++ m :=
  parse_resume_error_uniform (fun _ => 0) (fun _ => .error "boom") ["hello"]
    ("Error parsing resume: " ++ "boom") (by rfl)

/-- Claim C7 counterexample: a successful run whose model response is the
empty object `{}` returns a record with no keys at all — the `profile` key
is absent rather than filled with empty values, so the fixed target shape
is not enforced on success. -/
theorem parse_resume_schema_keys_cex :
    parse_resume (fun _ => 0) (fun _ => .ok "\x7b\x7d") ["hello"] =
      some (.ok (Json.obj [])) ∧
    hasKey (Json.obj []) ("profile".toList) = false :=
  ⟨rfl, rfl⟩

theorem parse_resume_ok_decomp_witness :
    ∃ extracted truncated resp cj,
      extract_text_from_pdf ["hello"] = .ok extracted ∧
      truncate_to_token_limit (fun _ => 0) extracted MAX_TOKENS = some truncated ∧
      (fun _ : String => (Except.ok "\x7b\x7d" : Except String String))
          (prompt ++ "\n" ++ truncated) = .ok resp ∧
      clean_json_string resp = .ok cj ∧
      json_loads cj = .ok (Json.obj []) :=
  parse_resume_ok_decomp (fun _ => 0) (fun _ => .ok "\x7b\x7d") ["hello"] (Json.obj []) (by rfl)

theorem clean_json_string_idempotent_witness :
    clean_json_string "\x7b\"a\": 1\x7d" = .ok "\x7b\"a\": 1\x7d" :=
  clean_json_string_idempotent "x \x7b\"a\": 1\x7d y" "\x7b\"a\": 1\x7d" (by rfl)

/-- Claim C9: for every uploaded filename whose extension — the lowercased
segment after the final dot, absent when there is no dot — is outside
`{pdf, docx, doc}`, the route answers with a 400 error response, and the
parser (hence text extraction and the completion call) is never invoked:
the route's answer is the same whatever the parser would do. -/
theorem route_rejects_disallowed_extension (hasFile : Bool) (filename : String)
    (p1 p2 : String → Option (Except String Json))
    (h : ¬ extensionAllowed filename) :
    (∃ m, parse_resume_route hasFile filename p1 = some (.badRequest m)) ∧
    parse_resume_route hasFile filename p1 = parse_resume_route hasFile filename p2 := by
  have hall : allowed_file filename = false := by
    cases hb : allowed_file filename
    · rfl
    · exact absurd ((extensionOf_allowed_iff filename).mp hb) h
  cases hasFile with
  | false => exact ⟨⟨"No file uploaded", rfl⟩, rfl⟩
  | true =>
    by_cases hemp : filename = ""
    · subst hemp
      exact ⟨⟨"No file selected", rfl⟩, rfl⟩
    · refine ⟨⟨"File type not allowed", ?_⟩, ?_⟩ <;>
        simp [parse_resume_route, hemp, hall]

theorem route_rejects_disallowed_extension_witness :
    (∃ m, parse_resume_route true "resume.txt" (fun _ => some (.ok (Json.obj []))) =
      some (.badRequest m)) ∧
    parse_resume_route true "resume.txt" (fun _ => some (.ok (Json.obj []))) =
      parse_resume_route true "resume.txt" (fun _ => some (.error "llm failure")) :=
  route_rejects_disallowed_extension true "resume.txt" _ _ (by
    rintro ⟨e, he, hm⟩
    rw [show extensionOf "resume.txt" = some "txt" from rfl] at he
    injection he with he1
    subst he1
    exact absurd hm (by decide))

/-- Claim C10: for every raw response text that contains both a `{` and a
`}` but whose first `{` comes after its last `}`, `clean_json_string`
neither returns successfully nor reports the no-JSON-object-found message:
the computed Python slice is empty, parsing it fails, and the surfaced
error is the parse-failure branch (`Invalid JSON structure: ` around the
parser's diagnostic), which differs from the no-JSON-found message. -/
theorem clean_json_string_reversed_braces (text : String) (i j0 : Nat)
    (hi : findIdx text.toList lbrace = some i) (hj : rfindIdx text.toList rbrace = some j0)
    (hlt : j0 < i) :
    pySlice text i (j0 + 1) = "" ∧
    clean_json_string text = .error ("Invalid JSON structure: " ++ "Expecting value") ∧
    ("Invalid JSON structure: " ++ "Expecting value") ≠
      ("Invalid JSON structure: " ++ "No JSON object found in response") := by
  have hz : j0 + 1 - i = 0 := by omega
  refine ⟨?_, ?_, by decide⟩
  · simp [pySlice, hz]
  · rw [clean_json_string_eq text i j0 hi hj, hz]
    simp only [List.take_zero]
    rfl

theorem clean_json_string_reversed_braces_witness :
    pySlice "\x7d \x7b" 2 (0 + 1) = "" ∧
    clean_json_string "\x7d \x7b" =
      .error ("Invalid JSON structure: " ++ "Expecting value") ∧
    ("Invalid JSON structure: " ++ "Expecting value") ≠
      ("Invalid JSON structure: " ++ "No JSON object found in response") :=
  clean_json_string_reversed_braces "\x7d \x7b" 2 0 (by rfl) (by rfl) (by decide)

end ResumeParser
